import Mathlib

/-!
Shallow embedding of the ir-access prefix pipeline and nftables setup.

The repository contains several historical variants of the same pipeline; the
embedding follows the canonical modern variant: the fetch/aggregate code with
`prefixCompare` and `slices.SortFunc` (unnamed/part_001, first document), the
`setup_nftables.go` first document (findSSHPort returning (uint16, error),
initializeNftablesConf, applyNftables) and `template.go`.

Modelling conventions:
- `netip.Prefix` becomes `NetPrefix` (family, numeric address, prefix length);
  machine words are `Nat` with explicit `% 2 ^ 32` where the 4-byte
  `big.Int.FillBytes` conversion matters.
- Go runtime panics (negative shift amount in `1 << (24 - prefixLen)` when
  `prefixLen > 24`) are modelled as `Option.none` / an error result.
- File effects are explicit state passing: a file is `Option` of its parsed
  content (`none` = absent/unreadable), threaded through the functions that
  create or keep it.
- External commands are an exit-status oracle `Cmd → Bool`, and each function
  additionally returns the list of commands it invoked, in order.
-/

namespace IrAccess

/-- Address family of a `netip.Addr`: 4-byte or 16-byte. -/
inductive Family where
  | v4
  | v6
deriving DecidableEq, Repr

/-- `netip.Addr.BitLen`: 32 for IPv4, 128 for IPv6. -/
def Family.bitLen : Family → Nat
  | .v4 => 32
  | .v6 => 128

/-- A `netip.Prefix`: an address of a given family plus a prefix length.
`addr` is the numeric value of the address bytes (big-endian), `bits` the
prefix length. The Go value does not mask the address to the prefix. -/
structure NetPrefix where
  family : Family
  addr : Nat
  bits : Nat
deriving DecidableEq, Repr

/-- The JSONL record shape: `{"CIDR": ..., "ASN": ...}` (fetch_prefixes). -/
structure Prefix where
  CIDR : NetPrefix
  ASN : Int
deriving DecidableEq, Repr

/-- `filterPrefixesByASN` (part_001 lines 84-102): keep records whose ASN is
in the target set, split by address family; other families are dropped. -/
def filterPrefixesByASN (prefixes : List Prefix) (asns : List Int) :
    List NetPrefix × List NetPrefix :=
  let v4Prefixes := (prefixes.filter fun p =>
    decide (p.ASN ∈ asns ∧ p.CIDR.family = Family.v4)).map Prefix.CIDR
  let v6Prefixes := (prefixes.filter fun p =>
    decide (p.ASN ∈ asns ∧ p.CIDR.family = Family.v6)).map Prefix.CIDR
  (v4Prefixes, v6Prefixes)

/-- `processPrefixTo24` (part_001 lines 105-123). A `/24` passes through
unchanged. Otherwise `numBlocks := 1 << (24 - prefixLen)`: in Go the shift
count `24 - prefixLen` is negative when `prefixLen > 24`, a runtime panic,
modelled as `none`. For `prefixLen < 24` the loop emits `numBlocks` blocks
whose addresses step by 256 (`incrementIPBy24`), each written back into 4
bytes (`intToIP`), hence the explicit `% 2 ^ 32`. -/
def processPrefixTo24 (p : NetPrefix) : Option (List NetPrefix) :=
  if p.bits = 24 then
    some [p]
  else if 24 < p.bits then
    none
  else
    let numBlocks := 2 ^ (24 - p.bits)
    some ((List.range numBlocks).map fun i =>
      { family := Family.v4, addr := (p.addr + 256 * i) % 2 ^ 32, bits := 24 })

/-- `prefixCompare` (part_001 lines 144-152): compare by address bit-width,
then prefix length, then numeric address. -/
def prefixCompare (a b : NetPrefix) : Ordering :=
  match compare a.family.bitLen b.family.bitLen with
  | .eq =>
    match compare a.bits b.bits with
    | .eq => compare a.addr b.addr
    | c => c
  | c => c

/-- Non-strict order induced by `prefixCompare` (what `slices.SortFunc`
sorts by). -/
def prefLe (a b : NetPrefix) : Prop := prefixCompare a b ≠ Ordering.gt

/-- Strict order induced by `prefixCompare`. -/
def prefLt (a b : NetPrefix) : Prop := prefixCompare a b = Ordering.lt

instance : DecidableRel prefLe := fun a b => by
  unfold prefLe
  infer_instance

instance : DecidableRel prefLt := fun a b => by
  unfold prefLt
  infer_instance

/-- `slices.SortFunc(sortedPrefixes, prefixCompare)`. -/
def sortPrefixes (l : List NetPrefix) : List NetPrefix := List.insertionSort prefLe l

/-- The decomposition loop of `writePrefixesToFileV4` (part_001 lines
170-176): split every input block, concatenating the results; `none` if any
split panics. -/
def splitAllTo24 : List NetPrefix → Option (List NetPrefix)
  | [] => some []
  | p :: rest => do
    let s ← processPrefixTo24 p
    let r ← splitAllTo24 rest
    pure (s ++ r)

/-- The pure core of `writePrefixesToFileV4` (part_001 lines 155-192): split
to `/24`, collapse duplicates (`uniquePrefixes` map), sort by
`prefixCompare`. The map collapses duplicates and its iteration order is
irrelevant because the final sort is by a total order on distinct keys. -/
def normalizeV4 (prefixes : List NetPrefix) : Option (List NetPrefix) :=
  (splitAllTo24 prefixes).map fun all => sortPrefixes all.dedup

/-- `writePrefixesToFileV4` with the output file state explicit: an empty
input returns success without touching the file; otherwise the file is
created and receives the normalized list (one prefix per line). A panic in
the split loop crashes after `os.Create` truncated the file. -/
def writePrefixesToFileV4 (prefixes : List NetPrefix)
    (outputFile : Option (List NetPrefix)) :
    Option (List NetPrefix) × Except String Unit :=
  if prefixes.isEmpty then
    (outputFile, Except.ok ())
  else
    match normalizeV4 prefixes with
    | none => (some [], Except.error "panic: negative shift amount")
    | some sortedPrefixes => (some sortedPrefixes, Except.ok ())

/-- `writePrefixesToFileV6` (part_001 lines 195-222) with the output file
state explicit: an empty input returns success without touching the file;
otherwise the input is copied, sorted with `prefixCompare` and written
without modification (no split, no deduplication). -/
def writePrefixesToFileV6 (prefixes : List NetPrefix)
    (outputFile : Option (List NetPrefix)) :
    Option (List NetPrefix) × Except String Unit :=
  if prefixes.isEmpty then
    (outputFile, Except.ok ())
  else
    (some (sortPrefixes prefixes), Except.ok ())

/-- `startFetchPrefixes` (part_001 lines 224-255) with the fetch result and
both file states explicit: a terminal fetch error returns before either
writer runs; otherwise the filtered families are written independently.
Result: the two file states after the run. -/
def startFetchPrefixes (fetchResult : Option (List Prefix)) (asns : List Int)
    (v4File v6File : Option (List NetPrefix)) :
    Option (List NetPrefix) × Option (List NetPrefix) :=
  match fetchResult with
  | none => (v4File, v6File)
  | some prefixes =>
    let fams := filterPrefixesByASN prefixes asns
    ((writePrefixesToFileV4 fams.1 v4File).1, (writePrefixesToFileV6 fams.2 v6File).1)

/-! ### Renderer (template.go)

`renderNftablesTemplate` executes a fixed `html/template` over
`(SSHDPort, IPv4Prefixes, IPv6Prefixes)`. The embedding expands the template
by hand, following Go's `{{-`/`-}}` whitespace trimming; the values that
reach the document (prefix strings, port decimal) contain no characters the
HTML escaper rewrites, so escaping is the identity. Literal braces in the
document are written with the `\x7b`/`\x7d` escapes. -/

/-- Decimal dotted-quad rendering of a 4-byte address (netip `string4`). -/
def string4 (addr : Nat) : String :=
  toString (addr / 2 ^ 24 % 256) ++ "." ++ toString (addr / 2 ^ 16 % 256) ++ "."
    ++ toString (addr / 2 ^ 8 % 256) ++ "." ++ toString (addr % 256)

/-- Lowercase hex of a 16-bit group, no leading zeros (netip `appendHex`). -/
def natToHex (n : Nat) : String := (Nat.toDigits 16 n).asString

/-- The eight 16-bit groups of a 128-bit address, most significant first. -/
def v6Groups (addr : Nat) : List Nat :=
  (List.range 8).map fun i => addr / 2 ^ (16 * (7 - i)) % 2 ^ 16

/-- Length of the zero-group run starting at index `i`. -/
def zeroRunLen (gs : List Nat) (i : Nat) : Nat :=
  ((gs.drop i).takeWhile fun g => decide (g = 0)).length

/-- netip `appendTo6` zero-run scan: the leftmost longest run of at least two
zero groups, as `(zeroStart, zeroEnd)`; `none` when no such run exists. -/
def bestZeroRun (gs : List Nat) : Option (Nat × Nat) :=
  (List.range 8).foldl
    (fun best i =>
      let l := zeroRunLen gs i
      match best with
      | none => if 2 ≤ l then some (i, i + l) else none
      | some se => if 2 ≤ l ∧ se.2 - se.1 < l then some (i, i + l) else best)
    none

/-- netip `string6`: hex groups joined by `:`, the chosen zero run elided
to `::`. -/
def string6 (addr : Nat) : String :=
  let gs := v6Groups addr
  match bestZeroRun gs with
  | none => String.intercalate ":" (gs.map natToHex)
  | some se =>
    String.intercalate ":" ((gs.take se.1).map natToHex) ++ "::"
      ++ String.intercalate ":" ((gs.drop se.2).map natToHex)

/-- `netip.Addr.String`: dotted quad for v4, `::ffff:a.b.c.d` for an
IPv4-mapped IPv6 address, compressed hex groups otherwise. -/
def addrString (p : NetPrefix) : String :=
  match p.family with
  | .v4 => string4 p.addr
  | .v6 =>
    if p.addr / 2 ^ 32 = 65535 then "::ffff:" ++ string4 (p.addr % 2 ^ 32)
    else string6 p.addr

/-- `netip.Prefix.String`: address, slash, decimal prefix length. -/
def prefixString (p : NetPrefix) : String :=
  addrString p ++ "/" ++ toString p.bits

/-- One `range` iteration body of the template's `elements` block: newline,
three tabs, the item, and a comma unless the item is the last one. -/
def rangeItems (items : List String) : String :=
  String.join (items.enum.map fun it =>
    "\n\t\t\t" ++ it.2 ++ (if it.1 < items.length - 1 then "," else ""))

/-- The `set allowed_ipv4` section; empty when the v4 list is empty. -/
def v4SetSection (v4Strs : List String) : String :=
  if v4Strs.length = 0 then ""
  else
    "\n\tset allowed_ipv4 \x7b\n\t\ttype ipv4_addr; flags interval; auto-merge;\n\t\telements = \x7b"
      ++ rangeItems v4Strs ++ "\n\t\t\x7d\n\t\x7d"

/-- The `set allowed_ipv6` section; empty when the v6 list is empty. -/
def v6SetSection (v6Strs : List String) : String :=
  if v6Strs.length = 0 then ""
  else
    "\n\tset allowed_ipv6 \x7b\n\t\ttype ipv6_addr; flags interval; auto-merge;\n\t\telements = \x7b"
      ++ rangeItems v6Strs ++ "\n\t\t\x7d\n\t\x7d"

/-- Everything the template emits before the SSH accept rule: shebang, flush,
table opening, the two optional set sections, and the input chain up to and
including `iif lo accept`. -/
def renderHeader (v4Prefixes v6Prefixes : List NetPrefix) : String :=
  "#!/usr/sbin/nft -f\n\nflush ruleset\n\ntable inet filter \x7b"
    ++ v4SetSection (v4Prefixes.map prefixString)
    ++ v6SetSection (v6Prefixes.map prefixString)
    ++ "\n\n\tchain input \x7b\n\t\ttype filter hook input priority filter; policy drop;\n\t\tct state established,related accept\n\t\tiif lo accept\n\t\t"

/-- Everything the template emits after the SSH accept rule: the optional
set-match accepts, and the forward and output chains. -/
def renderFooter (v4Prefixes v6Prefixes : List NetPrefix) : String :=
  (if v4Prefixes.length = 0 then "" else "\n\t\tip saddr @allowed_ipv4 accept")
    ++ (if v6Prefixes.length = 0 then "" else "\n\t\tip6 saddr @allowed_ipv6 accept")
    ++ "\n\t\x7d\n\n\tchain forward \x7b\n\t\ttype filter hook forward priority filter; policy drop;\n\t\x7d\n\n\tchain output \x7b\n\t\ttype filter hook output priority filter; policy accept;\n\t\x7d\n\x7d\n"

/-- `renderNftablesTemplate` (template.go lines 9-87): the full document. The
Go function returns `(string, error)` but the error is always nil for this
fixed template, so the model returns the document. -/
def renderNftablesTemplate (sshdPort : Nat) (v4Prefixes v6Prefixes : List NetPrefix) : String :=
  renderHeader v4Prefixes v6Prefixes
    ++ ("tcp dport " ++ toString sshdPort ++ " accept")
    ++ renderFooter v4Prefixes v6Prefixes

/-! ### Setup phase (setup_nftables.go, first document) -/

/-- RE2 `\s`: the five whitespace characters `[\t\n\f\r ]`. -/
def goWhitespace (c : Char) : Bool :=
  c = ' ' || c = '\t' || c = '\n' || c = '\x0c' || c = '\r'

/-- Numeric value of a run of decimal digit characters. -/
def digitsToNat (ds : List Char) : Nat :=
  ds.foldl (fun acc c => acc * 10 + (c.toNat - 48)) 0

/-- One line against the anchored regex `^Port\s+(\d+)` of `findSSHPort`:
the line must start with `Port`, then one or more whitespace characters,
then one or more digits; the capture is the maximal digit run, and the rest
of the line is unconstrained. -/
def matchPortLine (line : String) : Option Nat :=
  match line.toList with
  | 'P' :: 'o' :: 'r' :: 't' :: rest =>
    let ws := rest.takeWhile goWhitespace
    let ds := (rest.dropWhile goWhitespace).takeWhile Char.isDigit
    if ws.isEmpty || ds.isEmpty then none else some (digitsToNat ds)
  | _ => none

/-- One scanner iteration of `findSSHPort` (lines 44-59): a regex match whose
capture fails `strconv.ParseUint(_, 10, 16)` (overflows 16 bits) is warned
about and skipped, everything else breaks the loop. -/
def portDirective (line : String) : Option Nat :=
  (matchPortLine line).bind fun m => if m < 2 ^ 16 then some m else none

/-- `findSSHPort` (setup_nftables.go lines 31-66): `none` when the sshd
configuration is absent/unreadable or no line yields a port (the Go error
returns). -/
def findSSHPort (sshdConfig : Option (List String)) : Option Nat :=
  sshdConfig.bind fun lines => lines.findSome? portDirective

/-- `defaultSSHPort` constant. -/
def defaultSSHPort : Nat := 22

/-- The port selection of `startSetupNftables` (lines 148-152): the found
port, or the default 22 with a warning when `findSSHPort` errored. -/
def discoverSSHPort (sshdConfig : Option (List String)) : Nat :=
  (findSSHPort sshdConfig).getD defaultSSHPort

/-- `initializeNftablesConf` (setup_nftables.go lines 90-126) with the three
files explicit. A failed `readPrefixes` (absent/unreadable/unparseable file,
modelled `none`) is degraded to the empty list; if both lists are empty the
function returns the `prefix lists empty` error before `os.Create`, leaving
the previous `/etc/nftables.conf` untouched; otherwise the rendered document
fully overwrites it. -/
def initializeNftablesConf (sshdPort : Nat) (v4File v6File : Option (List NetPrefix))
    (nftablesConf : Option String) : Option String × Except String Unit :=
  let ipv4Prefixes := v4File.getD []
  let ipv6Prefixes := v6File.getD []
  if ipv4Prefixes.isEmpty && ipv6Prefixes.isEmpty then
    (nftablesConf, Except.error "prefix lists empty")
  else
    (some (renderNftablesTemplate sshdPort ipv4Prefixes ipv6Prefixes), Except.ok ())

/-- The three external commands of the apply/verify phase. -/
inductive Cmd where
  | loadRuleset
  | enableService
  | listRuleset
deriving DecidableEq, Repr

/-- `applyNftables` (setup_nftables.go lines 128-140) against an exit-status
oracle: run `nft -f /etc/nftables.conf`; on non-zero exit return the error at
once; only then run `systemctl enable --now nftables`. Returns the invoked
commands in order plus the result. -/
def applyNftables (exitOK : Cmd → Bool) : List Cmd × Except String Unit :=
  if exitOK Cmd.loadRuleset = false then
    ([Cmd.loadRuleset], Except.error "failed to apply nftables configuration")
  else if exitOK Cmd.enableService = false then
    ([Cmd.loadRuleset, Cmd.enableService],
      Except.error "failed to enable and start nftables services")
  else
    ([Cmd.loadRuleset, Cmd.enableService], Except.ok ())

/-- `verifyNftables` (lines 142-145): `nft list ruleset`. -/
def verifyNftables (exitOK : Cmd → Bool) : List Cmd × Except String Unit :=
  ([Cmd.listRuleset],
    if exitOK Cmd.listRuleset then Except.ok ()
    else Except.error "failed to verify nftables ruleset")

/-- `startSetupNftables` (lines 147-178): discover the port, initialize the
configuration (abort on error), apply (abort on error), verify. Returns the
final `/etc/nftables.conf` state, the invoked external commands in order, and
the result. -/
def startSetupNftables (sshdConfig : Option (List String))
    (v4File v6File : Option (List NetPrefix)) (nftablesConf : Option String)
    (exitOK : Cmd → Bool) : Option String × List Cmd × Except String Unit :=
  match initializeNftablesConf (discoverSSHPort sshdConfig) v4File v6File nftablesConf with
  | (conf, Except.error e) =>
    (conf, [], Except.error ("failed to initialize nftables configuration: " ++ e))
  | (conf, Except.ok _) =>
    match applyNftables exitOK with
    | (cmds, Except.error e) =>
      (conf, cmds, Except.error ("failed to apply nftables configuration: " ++ e))
    | (cmds, Except.ok _) =>
      match verifyNftables exitOK with
      | (vcmds, Except.error e) =>
        (conf, cmds ++ vcmds, Except.error ("failed to verify nftables ruleset: " ++ e))
      | (vcmds, Except.ok _) => (conf, cmds ++ vcmds, Except.ok ())

/-- Membership in a block's address range: the numeric interval
`[addr, addr + 2 ^ (32 - bits))` of an IPv4 block. -/
def inRange (p : NetPrefix) (x : Nat) : Prop :=
  p.addr ≤ x ∧ x < p.addr + 2 ^ (32 - p.bits)

instance (p : NetPrefix) (x : Nat) : Decidable (inRange p x) := by
  unfold inRange
  infer_instance

instance : Inhabited NetPrefix := ⟨{ family := Family.v4, addr := 0, bits := 0 }⟩

/-- The decomposition property asserted by the spec for an IPv4 block shorter
than `/24`: the split yields exactly `2 ^ (24 - bits)` distinct `/24` blocks,
surviving deduplication unchanged, the `i`-th at address `addr + 256 * i`,
whose ranges partition the input block's range with no gap and no overlap. -/
def DecomposesTo24 (p : NetPrefix) : Prop :=
  ∃ blocks : List NetPrefix,
    processPrefixTo24 p = some blocks ∧
    blocks.Nodup ∧
    blocks.dedup = blocks ∧
    blocks.length = 2 ^ (24 - p.bits) ∧
    (∀ i, i < 2 ^ (24 - p.bits) →
      blocks.getD i default = { family := Family.v4, addr := p.addr + 256 * i, bits := 24 }) ∧
    (∀ x, inRange p x ↔ ∃ b ∈ blocks, inRange b x) ∧
    blocks.Pairwise fun b c => ∀ x, ¬(inRange b x ∧ inRange c x)

/-- The `198.51.100.0/23` block of the spec's Scenario A
(`198 * 2^24 + 51 * 2^16 + 100 * 2^8 = 3325256704`). -/
def scenarioBlock : NetPrefix := { family := Family.v4, addr := 3325256704, bits := 23 }

/-- A sample `/24` block: `198.51.100.0/24`. -/
def blockA : NetPrefix := { family := Family.v4, addr := 3325256704, bits := 24 }

/-- A sample `/24` block: `198.51.101.0/24`. -/
def blockB : NetPrefix := { family := Family.v4, addr := 3325256960, bits := 24 }

/-- A sample `/25` block (longer than `/24`): `198.51.100.0/25`. -/
def blockLong : NetPrefix := { family := Family.v4, addr := 3325256704, bits := 25 }

/-- A sample IPv6 block: `2001:db8::/32`
(`0x20010db8 * 2^96 = 42540766411282592856903984951653826560`). -/
def blockV6 : NetPrefix :=
  { family := Family.v6, addr := 42540766411282592856903984951653826560, bits := 32 }

/-! ### Order lemmas for `prefixCompare` -/

theorem Family.bitLen_injective {f g : Family} (h : f.bitLen = g.bitLen) : f = g := by
  cases f <;> cases g <;> simp_all [Family.bitLen]

theorem prefixCompare_eq_lt {a b : NetPrefix} :
    prefixCompare a b = Ordering.lt ↔
      a.family.bitLen < b.family.bitLen ∨ a.family.bitLen = b.family.bitLen ∧
        (a.bits < b.bits ∨ a.bits = b.bits ∧ a.addr < b.addr) := by
  unfold prefixCompare
  cases h1 : compare a.family.bitLen b.family.bitLen <;>
    cases h2 : compare a.bits b.bits <;>
    cases h3 : compare a.addr b.addr <;>
    simp_all [Nat.compare_eq_lt, Nat.compare_eq_eq, Nat.compare_eq_gt] <;>
    omega

theorem prefixCompare_eq_gt {a b : NetPrefix} :
    prefixCompare a b = Ordering.gt ↔
      b.family.bitLen < a.family.bitLen ∨ a.family.bitLen = b.family.bitLen ∧
        (b.bits < a.bits ∨ a.bits = b.bits ∧ b.addr < a.addr) := by
  unfold prefixCompare
  cases h1 : compare a.family.bitLen b.family.bitLen <;>
    cases h2 : compare a.bits b.bits <;>
    cases h3 : compare a.addr b.addr <;>
    simp_all [Nat.compare_eq_lt, Nat.compare_eq_eq, Nat.compare_eq_gt] <;>
    omega

theorem prefixCompare_eq_eq {a b : NetPrefix} :
    prefixCompare a b = Ordering.eq ↔ a = b := by
  constructor
  · intro h
    have h3 : a.family.bitLen = b.family.bitLen ∧ a.bits = b.bits ∧ a.addr = b.addr := by
      unfold prefixCompare at h
      cases h1 : compare a.family.bitLen b.family.bitLen <;>
        cases h2 : compare a.bits b.bits <;>
        cases h3 : compare a.addr b.addr <;>
        simp_all [Nat.compare_eq_lt, Nat.compare_eq_eq, Nat.compare_eq_gt]
    obtain ⟨hf, hb, ha⟩ := h3
    have hfam := Family.bitLen_injective hf
    cases a
    cases b
    simp_all
  · rintro rfl
    unfold prefixCompare
    rw [show compare a.family.bitLen a.family.bitLen = Ordering.eq from Nat.compare_eq_eq.2 rfl]
    rw [show compare a.bits a.bits = Ordering.eq from Nat.compare_eq_eq.2 rfl]
    exact Nat.compare_eq_eq.2 rfl

theorem prefLt_trans {a b c : NetPrefix} (h1 : prefLt a b) (h2 : prefLt b c) : prefLt a c := by
  unfold prefLt at h1 h2 ⊢
  rw [prefixCompare_eq_lt] at h1 h2 ⊢
  omega

theorem prefLt_le {a b : NetPrefix} (h : prefLt a b) : prefLe a b := by
  unfold prefLt at h
  unfold prefLe
  rw [h]
  decide

theorem prefLt_ne {a b : NetPrefix} (h : prefLt a b) : a ≠ b := by
  rintro rfl
  unfold prefLt at h
  rw [prefixCompare_eq_eq.2 rfl] at h
  cases h

theorem prefLe_iff {a b : NetPrefix} : prefLe a b ↔ a = b ∨ prefLt a b := by
  constructor
  · intro h
    cases hc : prefixCompare a b with
    | lt => exact Or.inr hc
    | eq => exact Or.inl (prefixCompare_eq_eq.1 hc)
    | gt => exact absurd hc h
  · rintro (rfl | h)
    · unfold prefLe
      rw [prefixCompare_eq_eq.2 rfl]
      decide
    · exact prefLt_le h

theorem prefLe_trans {a b c : NetPrefix} (h1 : prefLe a b) (h2 : prefLe b c) : prefLe a c := by
  rcases prefLe_iff.1 h1 with rfl | hlt
  · exact h2
  rcases prefLe_iff.1 h2 with rfl | hlt2
  · exact prefLt_le hlt
  · exact prefLt_le (prefLt_trans hlt hlt2)

theorem prefLe_total (a b : NetPrefix) : prefLe a b ∨ prefLe b a := by
  unfold prefLe
  rw [Ne, Ne, prefixCompare_eq_gt, prefixCompare_eq_gt]
  omega

theorem prefLe_antisymm {a b : NetPrefix} (h1 : prefLe a b) (h2 : prefLe b a) : a = b := by
  rcases prefLe_iff.1 h1 with rfl | hlt
  · rfl
  rcases prefLe_iff.1 h2 with rfl | hlt2
  · rfl
  exfalso
  unfold prefLt at hlt hlt2
  rw [prefixCompare_eq_lt] at hlt hlt2
  omega

instance : IsTrans NetPrefix prefLe := ⟨fun _ _ _ => prefLe_trans⟩

instance : IsTotal NetPrefix prefLe := ⟨prefLe_total⟩

instance : IsAntisymm NetPrefix prefLe := ⟨fun _ _ => prefLe_antisymm⟩

theorem nodup_of_sorted_lt {l : List NetPrefix} (h : l.Sorted prefLt) : l.Nodup :=
  List.Pairwise.imp (fun hab => prefLt_ne hab) h

theorem sorted_lt_of_le_nodup {l : List NetPrefix} (hs : l.Sorted prefLe) (hn : l.Nodup) :
    l.Sorted prefLt := by
  induction l with
  | nil => exact List.Pairwise.nil
  | cons a t ih =>
    rw [List.sorted_cons] at hs ⊢
    rw [List.nodup_cons] at hn
    refine ⟨fun b hb => ?_, ih hs.2 hn.2⟩
    rcases prefLe_iff.1 (hs.1 b hb) with rfl | h
    · exact absurd hb hn.1
    · exact h

/-! ### Lemmas about the v4 split and normalization -/

theorem splitAllTo24_cons_some {p : NetPrefix} {rest s r : List NetPrefix}
    (hp : processPrefixTo24 p = some s) (hr : splitAllTo24 rest = some r) :
    splitAllTo24 (p :: rest) = some (s ++ r) := by
  simp [splitAllTo24, hp, hr]

theorem splitAllTo24_cons_none_left {p : NetPrefix} {rest : List NetPrefix}
    (hp : processPrefixTo24 p = none) : splitAllTo24 (p :: rest) = none := by
  simp [splitAllTo24, hp]

theorem splitAllTo24_cons_none_right {p : NetPrefix} {rest s : List NetPrefix}
    (hp : processPrefixTo24 p = some s) (hr : splitAllTo24 rest = none) :
    splitAllTo24 (p :: rest) = none := by
  simp [splitAllTo24, hp, hr]

theorem processPrefixTo24_bits {p : NetPrefix} {out : List NetPrefix}
    (h : processPrefixTo24 p = some out) : ∀ q ∈ out, q.bits = 24 := by
  unfold processPrefixTo24 at h
  split_ifs at h with h24 hgt
  · cases h
    intro q hq
    rw [List.mem_singleton] at hq
    subst hq
    exact h24
  · cases h
    intro q hq
    simp only [List.mem_map] at hq
    obtain ⟨i, _, rfl⟩ := hq
    rfl

theorem splitAllTo24_bits : ∀ {l out : List NetPrefix}, splitAllTo24 l = some out →
    ∀ q ∈ out, q.bits = 24 := by
  intro l
  induction l with
  | nil =>
    intro out h q hq
    cases h
    cases hq
  | cons p rest ih =>
    intro out h q hq
    cases hp : processPrefixTo24 p with
    | none => rw [splitAllTo24_cons_none_left hp] at h; cases h
    | some s =>
      cases hr : splitAllTo24 rest with
      | none => rw [splitAllTo24_cons_none_right hp hr] at h; cases h
      | some r =>
        rw [splitAllTo24_cons_some hp hr] at h
        cases h
        rcases List.mem_append.1 hq with hqs | hqr
        · exact processPrefixTo24_bits hp q hqs
        · exact ih hr q hqr

theorem splitAllTo24_none_of_mem {l : List NetPrefix} {p : NetPrefix} (hp : p ∈ l)
    (h : processPrefixTo24 p = none) : splitAllTo24 l = none := by
  induction l with
  | nil => cases hp
  | cons q rest ih =>
    rcases List.mem_cons.1 hp with rfl | hmem
    · exact splitAllTo24_cons_none_left h
    · cases hq : processPrefixTo24 q with
      | none => exact splitAllTo24_cons_none_left hq
      | some s =>
        cases hr : splitAllTo24 rest with
        | none => exact splitAllTo24_cons_none_right hq hr
        | some r =>
          rw [ih hmem] at hr
          cases hr

theorem splitAllTo24_perm {xs ys : List NetPrefix} (hperm : xs.Perm ys) :
    ∀ {a : List NetPrefix}, splitAllTo24 xs = some a →
      ∃ b, splitAllTo24 ys = some b ∧ a.Perm b := by
  induction hperm with
  | nil =>
    intro a ha
    exact ⟨a, ha, List.Perm.refl a⟩
  | cons x h ih =>
    intro a ha
    rename_i l₁ l₂
    cases hx : processPrefixTo24 x with
    | none => rw [splitAllTo24_cons_none_left hx] at ha; cases ha
    | some s =>
      cases hr : splitAllTo24 l₁ with
      | none => rw [splitAllTo24_cons_none_right hx hr] at ha; cases ha
      | some r =>
        rw [splitAllTo24_cons_some hx hr] at ha
        cases ha
        obtain ⟨r2, hr2, hrp⟩ := ih hr
        exact ⟨s ++ r2, splitAllTo24_cons_some hx hr2, List.Perm.append_left s hrp⟩
  | swap x y l =>
    intro a ha
    cases hy : processPrefixTo24 y with
    | none => rw [splitAllTo24_cons_none_left hy] at ha; cases ha
    | some sy =>
      cases hx : processPrefixTo24 x with
      | none =>
        rw [splitAllTo24_cons_none_right hy (splitAllTo24_cons_none_left hx)] at ha
        cases ha
      | some sx =>
        cases hl : splitAllTo24 l with
        | none =>
          rw [splitAllTo24_cons_none_right hy (splitAllTo24_cons_none_right hx hl)] at ha
          cases ha
        | some r =>
          rw [splitAllTo24_cons_some hy (splitAllTo24_cons_some hx hl)] at ha
          cases ha
          refine ⟨sx ++ (sy ++ r), splitAllTo24_cons_some hx (splitAllTo24_cons_some hy hl), ?_⟩
          rw [← List.append_assoc, ← List.append_assoc]
          exact List.Perm.append_right r List.perm_append_comm
  | trans h1 h2 ih1 ih2 =>
    intro a ha
    obtain ⟨m, hm, hma⟩ := ih1 ha
    obtain ⟨b, hb, hmb⟩ := ih2 hm
    exact ⟨b, hb, hma.trans hmb⟩

theorem normalizeV4_perm {xs ys : List NetPrefix} (h : xs.Perm ys) :
    normalizeV4 xs = normalizeV4 ys := by
  unfold normalizeV4
  cases hx : splitAllTo24 xs with
  | none =>
    cases hy : splitAllTo24 ys with
    | none => rfl
    | some b =>
      obtain ⟨a, ha, _⟩ := splitAllTo24_perm h.symm hy
      rw [hx] at ha
      cases ha
  | some a =>
    obtain ⟨b, hb, hab⟩ := splitAllTo24_perm h hx
    rw [hb]
    have hsort : sortPrefixes a.dedup = sortPrefixes b.dedup :=
      List.eq_of_perm_of_sorted
        (((List.perm_insertionSort prefLe a.dedup).trans hab.dedup).trans
          (List.perm_insertionSort prefLe b.dedup).symm)
        (List.sorted_insertionSort prefLe a.dedup)
        (List.sorted_insertionSort prefLe b.dedup)
    simp [sortPrefixes] at hsort
    simp [sortPrefixes, hsort]

theorem normalizeV4_sorted {xs out : List NetPrefix} (h : normalizeV4 xs = some out) :
    out.Sorted prefLt := by
  unfold normalizeV4 at h
  cases hx : splitAllTo24 xs with
  | none => rw [hx] at h; cases h
  | some a =>
    rw [hx] at h
    simp only [Option.map_some'] at h
    cases h
    apply sorted_lt_of_le_nodup
    · exact List.sorted_insertionSort prefLe a.dedup
    · exact ((List.perm_insertionSort prefLe a.dedup).nodup_iff).2 (List.nodup_dedup a)

theorem normalizeV4_bits {xs out : List NetPrefix} (h : normalizeV4 xs = some out) :
    ∀ p ∈ out, p.bits = 24 := by
  unfold normalizeV4 at h
  cases hx : splitAllTo24 xs with
  | none => rw [hx] at h; cases h
  | some a =>
    rw [hx] at h
    simp only [Option.map_some'] at h
    cases h
    intro p hp
    rw [sortPrefixes, List.mem_insertionSort, List.mem_dedup] at hp
    exact splitAllTo24_bits hx p hp

theorem splitAllTo24_of_all24 {l : List NetPrefix} (h : ∀ p ∈ l, p.bits = 24) :
    splitAllTo24 l = some l := by
  induction l with
  | nil => rfl
  | cons p rest ih =>
    have hp : processPrefixTo24 p = some [p] := by
      unfold processPrefixTo24
      rw [if_pos (h p (List.mem_cons_self p rest))]
    have hr := ih fun q hq => h q (List.mem_cons_of_mem p hq)
    rw [splitAllTo24_cons_some hp hr]
    rfl

theorem normalizeV4_of_normalized {l : List NetPrefix} (h24 : ∀ p ∈ l, p.bits = 24)
    (hsorted : l.Sorted prefLt) : normalizeV4 l = some l := by
  unfold normalizeV4
  rw [splitAllTo24_of_all24 h24]
  have hnd : l.Nodup := nodup_of_sorted_lt hsorted
  have hle : l.Sorted prefLe := List.Pairwise.imp (fun hab => prefLt_le hab) hsorted
  simp [sortPrefixes, List.dedup_eq_self.2 hnd, hle.insertionSort_eq]

/-! ### Arithmetic facts for the `/24` decomposition -/

theorem addr_add_lt {p : NetPrefix} (hlt : p.bits < 24) (haddr : p.addr < 2 ^ 32)
    (hmask : p.addr % 2 ^ (32 - p.bits) = 0) {i : Nat} (hi : i < 2 ^ (24 - p.bits)) :
    p.addr + 256 * i < 2 ^ 32 := by
  obtain ⟨q, hq⟩ := Nat.dvd_of_mod_eq_zero hmask
  have hpow : 2 ^ (32 - p.bits) * 2 ^ p.bits = 2 ^ 32 := by
    rw [← pow_add]
    congr 1
    omega
  have hq_lt : q < 2 ^ p.bits := by
    by_contra hq_ge
    push_neg at hq_ge
    have hge : 2 ^ 32 ≤ p.addr := by
      calc 2 ^ 32 = 2 ^ (32 - p.bits) * 2 ^ p.bits := hpow.symm
        _ ≤ 2 ^ (32 - p.bits) * q := Nat.mul_le_mul_left _ hq_ge
        _ = p.addr := hq.symm
    omega
  have h256 : 256 * 2 ^ (24 - p.bits) = 2 ^ (32 - p.bits) := by
    rw [show (256 : Nat) = 2 ^ 8 by norm_num, ← pow_add]
    congr 1
    omega
  have hA : p.addr ≤ 2 ^ 32 - 2 ^ (32 - p.bits) := by
    calc p.addr = 2 ^ (32 - p.bits) * q := hq
      _ ≤ 2 ^ (32 - p.bits) * (2 ^ p.bits - 1) := Nat.mul_le_mul_left _ (by omega)
      _ = 2 ^ (32 - p.bits) * 2 ^ p.bits - 2 ^ (32 - p.bits) := Nat.mul_sub_one ..
      _ = 2 ^ 32 - 2 ^ (32 - p.bits) := by rw [hpow]
  have hM : (0 : Nat) < 2 ^ (32 - p.bits) := Nat.pos_pow_of_pos _ (by norm_num)
  have hMle : 2 ^ (32 - p.bits) ≤ 2 ^ 32 := Nat.pow_le_pow_right (by norm_num) (by omega)
  clear hq hq_lt hpow
  omega

theorem inRange_iff {p : NetPrefix} {x : Nat} :
    inRange p x ↔ p.addr ≤ x ∧ x < p.addr + 2 ^ (32 - p.bits) := Iff.rfl

/-- Claim C1: for an IPv4 block whose prefix length `p` is strictly less
than 24 and whose address is the masked network address, the v4 split
followed by deduplication yields exactly `2 ^ (24 - p)` distinct `/24`
blocks obtained by repeated addition of 256 to the network address, whose
ranges cover the input block's range exactly, with no gap and no overlap;
a block with prefix length exactly 24 is returned unchanged. -/
theorem c1_decomposition_complete (p : NetPrefix) (hf : p.family = Family.v4) :
    (p.bits = 24 → processPrefixTo24 p = some [p]) ∧
    (p.bits < 24 → p.addr < 2 ^ 32 → p.addr % 2 ^ (32 - p.bits) = 0 → DecomposesTo24 p) := by
  constructor
  · intro h24
    unfold processPrefixTo24
    rw [if_pos h24]
  · intro hlt haddr hmask
    have h256 : 256 * 2 ^ (24 - p.bits) = 2 ^ (32 - p.bits) := by
      rw [show (256 : Nat) = 2 ^ 8 by norm_num, ← pow_add]
      congr 1
      omega
    have hproc : processPrefixTo24 p = some ((List.range (2 ^ (24 - p.bits))).map fun i =>
        { family := Family.v4, addr := (p.addr + 256 * i) % 2 ^ 32, bits := 24 }) := by
      unfold processPrefixTo24
      rw [if_neg (by omega), if_neg (by omega)]
    have hmap : ((List.range (2 ^ (24 - p.bits))).map fun i =>
          ({ family := Family.v4, addr := (p.addr + 256 * i) % 2 ^ 32, bits := 24 } : NetPrefix))
        = (List.range (2 ^ (24 - p.bits))).map fun i =>
          { family := Family.v4, addr := p.addr + 256 * i, bits := 24 } := by
      apply List.map_congr_left
      intro i hi
      rw [List.mem_range] at hi
      rw [Nat.mod_eq_of_lt (addr_add_lt hlt haddr hmask hi)]
    have hnd : ((List.range (2 ^ (24 - p.bits))).map fun i =>
        ({ family := Family.v4, addr := p.addr + 256 * i, bits := 24 } : NetPrefix)).Nodup := by
      refine List.Nodup.map_on ?_ (List.nodup_range _)
      intro i hi j hj hij
      have haddr_eq := congrArg NetPrefix.addr hij
      simp only at haddr_eq
      omega
    refine ⟨(List.range (2 ^ (24 - p.bits))).map fun i =>
      { family := Family.v4, addr := p.addr + 256 * i, bits := 24 },
      hproc.trans (congrArg some hmap), hnd, List.dedup_eq_self.2 hnd, ?_, ?_, ?_, ?_⟩
    · simp
    · intro i hi
      rw [List.getD_eq_getElem _ _ (by simpa using hi)]
      simp
    · intro x
      simp only [inRange_iff, List.mem_map, List.mem_range]
      constructor
      · rintro ⟨hx1, hx2⟩
        have hdm := Nat.div_add_mod (x - p.addr) 256
        have hr : (x - p.addr) % 256 < 256 := Nat.mod_lt _ (by norm_num)
        have hqN : (x - p.addr) / 256 < 2 ^ (24 - p.bits) := by omega
        refine ⟨_, ⟨(x - p.addr) / 256, hqN, rfl⟩, ?_⟩
        simp only
        norm_num
        omega
      · rintro ⟨b, ⟨i, hiN, rfl⟩, hb1, hb2⟩
        simp only at hb1 hb2
        norm_num at hb2
        omega
    · rw [List.pairwise_map]
      refine List.Pairwise.imp ?_ (List.pairwise_lt_range _)
      intro i j hij x hx
      obtain ⟨h1, h2⟩ := inRange_iff.1 hx.1
      obtain ⟨h3, h4⟩ := inRange_iff.1 hx.2
      simp only at h1 h2 h3 h4
      norm_num at h2 h4
      omega

/-- Witness for claim C1 at Scenario A's block `198.51.100.0/23`. -/
theorem c1_witness :
    (scenarioBlock.family = Family.v4 ∧ scenarioBlock.bits < 24 ∧
      scenarioBlock.addr < 2 ^ 32 ∧ scenarioBlock.addr % 2 ^ (32 - scenarioBlock.bits) = 0) ∧
    DecomposesTo24 scenarioBlock :=
  ⟨⟨rfl, by decide, by decide, by decide⟩,
    (c1_decomposition_complete scenarioBlock rfl).2 (by decide) (by decide) (by decide)⟩

/-- Counterexample for claim C2: on `198.51.100.0/25` (prefix length 25,
strictly greater than 24) the v4 decomposition computes the shift
`1 << (24 - 25)`, a negative shift amount, a runtime panic: normalization
does not succeed, so the block is not retained. -/
theorem c2_counterexample :
    processPrefixTo24 blockLong = none ∧ normalizeV4 [blockLong] = none ∧
    ¬∃ out, normalizeV4 [blockLong] = some out ∧ blockLong ∈ out := by
  refine ⟨rfl, rfl, ?_⟩
  rintro ⟨out, hout, _⟩
  rw [show normalizeV4 [blockLong] = none from rfl] at hout
  cases hout

/-- Claim C2 amended: an IPv4 block with prefix length strictly greater
than 24 is not retained: the decomposition aborts (Go panics on the
negative shift amount `24 - prefixLen`), and any v4 normalization whose
input contains such a block fails rather than producing output. -/
theorem c2_amended (p : NetPrefix) (hgt : 24 < p.bits) :
    processPrefixTo24 p = none ∧
    ∀ l, p ∈ l → splitAllTo24 l = none ∧ normalizeV4 l = none := by
  have hp : processPrefixTo24 p = none := by
    unfold processPrefixTo24
    rw [if_neg (by omega), if_pos hgt]
  refine ⟨hp, fun l hl => ?_⟩
  have hsplit := splitAllTo24_none_of_mem hl hp
  exact ⟨hsplit, by simp [normalizeV4, hsplit]⟩

/-- Witness for the amended claim C2 at `198.51.100.0/25`. -/
theorem c2_witness :
    (24 < blockLong.bits) ∧
    (processPrefixTo24 blockLong = none ∧
      ∀ l, blockLong ∈ l → splitAllTo24 l = none ∧ normalizeV4 l = none) :=
  ⟨by decide, c2_amended blockLong (by decide)⟩

/-- Claim C3: the lines of the persisted v4 prefix file are strictly
ascending under the `prefixCompare` comparator (hence duplicate-free), and
the written sequence is determined by the comparator alone, not by the
input's arrival order: any permutation of the input produces the same
output. -/
theorem c3_canonical_ordering (xs ys out : List NetPrefix)
    (outputFile : Option (List NetPrefix))
    (hout : normalizeV4 xs = some out) (hperm : xs.Perm ys) (hne : xs ≠ []) :
    out.Sorted prefLt ∧ out.Nodup ∧ normalizeV4 ys = some out ∧
      (writePrefixesToFileV4 xs outputFile).1 = some out := by
  have hs := normalizeV4_sorted hout
  refine ⟨hs, nodup_of_sorted_lt hs, ?_, ?_⟩
  · rw [← normalizeV4_perm hperm]
    exact hout
  · unfold writePrefixesToFileV4
    rw [if_neg (by simpa using hne), hout]

/-- Witness for claim C3: the two-block input `[198.51.101.0/24,
198.51.100.0/24]` and its transposition both normalize to the same sorted
file content. -/
theorem c3_witness :
    (normalizeV4 [blockB, blockA] = some [blockA, blockB] ∧
      ([blockB, blockA] : List NetPrefix).Perm [blockA, blockB] ∧
      ([blockB, blockA] : List NetPrefix) ≠ []) ∧
    (([blockA, blockB] : List NetPrefix).Sorted prefLt ∧
      ([blockA, blockB] : List NetPrefix).Nodup ∧
      normalizeV4 [blockA, blockB] = some [blockA, blockB] ∧
      (writePrefixesToFileV4 [blockB, blockA] none).1 = some [blockA, blockB]) :=
  ⟨⟨by decide, List.Perm.swap blockA blockB [], by decide⟩,
    c3_canonical_ordering [blockB, blockA] [blockA, blockB] [blockA, blockB] none
      (by decide) (List.Perm.swap blockA blockB []) (by decide)⟩

/-- Counterexample for claim C4: the IPv6 writer applies no duplicate
removal. With the duplicated input `[2001:db8::/32, 2001:db8::/32]` the
persisted file contains the block twice, not exactly once. -/
theorem c4_counterexample :
    (writePrefixesToFileV6 [blockV6, blockV6] none).1 = some [blockV6, blockV6] ∧
    ((writePrefixesToFileV6 [blockV6, blockV6] none).1.getD []).count blockV6 ≠ 1 := by
  constructor <;> decide

/-- Claim C4 amended: IPv6 blocks are not decomposed and not deduplicated:
the persisted sequence is exactly the input sequence reordered by the
canonical comparator, retaining every occurrence (including exact
duplicates) unchanged. -/
theorem c4_amended (l : List NetPrefix) (outputFile : Option (List NetPrefix))
    (hne : l ≠ []) :
    (writePrefixesToFileV6 l outputFile).1 = some (sortPrefixes l) ∧
    (sortPrefixes l).Perm l ∧
    (sortPrefixes l).Sorted prefLe ∧
    ∀ p, (sortPrefixes l).count p = l.count p := by
  refine ⟨?_, List.perm_insertionSort prefLe l, List.sorted_insertionSort prefLe l,
    fun p => (List.perm_insertionSort prefLe l).count_eq p⟩
  unfold writePrefixesToFileV6
  rw [if_neg (by simpa using hne)]

/-- Witness for the amended claim C4 at the duplicated IPv6 input. -/
theorem c4_witness :
    (([blockV6, blockV6] : List NetPrefix) ≠ []) ∧
    ((writePrefixesToFileV6 [blockV6, blockV6] none).1
        = some (sortPrefixes [blockV6, blockV6]) ∧
      (sortPrefixes [blockV6, blockV6]).Perm [blockV6, blockV6] ∧
      (sortPrefixes [blockV6, blockV6]).Sorted prefLe ∧
      ∀ p, (sortPrefixes [blockV6, blockV6]).count p
        = ([blockV6, blockV6] : List NetPrefix).count p) :=
  ⟨by decide, c4_amended [blockV6, blockV6] none (by decide)⟩

/-- Claim C5: when both prefix files read as empty (absent, unreadable, or
without content) the render phase returns the Fatal-Empty error before
creating the ruleset file, and the previous `/etc/nftables.conf` state is
left unchanged, both in `initializeNftablesConf` itself and across the
whole `startSetupNftables` run. -/
theorem c5_fatal_empty (sshdPort : Nat) (v4File v6File : Option (List NetPrefix))
    (nftablesConf : Option String)
    (h4 : v4File.getD [] = []) (h6 : v6File.getD [] = []) :
    initializeNftablesConf sshdPort v4File v6File nftablesConf
        = (nftablesConf, Except.error "prefix lists empty") ∧
    ∀ sshdConfig exitOK,
      startSetupNftables sshdConfig v4File v6File nftablesConf exitOK
        = (nftablesConf, [],
            Except.error "failed to initialize nftables configuration: prefix lists empty") := by
  have hkey : ∀ port, initializeNftablesConf port v4File v6File nftablesConf
      = (nftablesConf, Except.error "prefix lists empty") := by
    intro port
    unfold initializeNftablesConf
    rw [h4, h6]
    rfl
  refine ⟨hkey sshdPort, fun sshdConfig exitOK => ?_⟩
  unfold startSetupNftables
  rw [hkey]
  rfl

/-- Witness for claim C5: a missing v4 file and an empty v6 file. -/
theorem c5_witness :
    ((none : Option (List NetPrefix)).getD [] = [] ∧
      (some ([] : List NetPrefix)).getD [] = []) ∧
    (initializeNftablesConf 22 none (some []) (some "previous")
        = (some "previous", Except.error "prefix lists empty") ∧
      ∀ sshdConfig exitOK,
        startSetupNftables sshdConfig none (some []) (some "previous") exitOK
          = (some "previous", [],
              Except.error "failed to initialize nftables configuration: prefix lists empty")) :=
  ⟨⟨rfl, rfl⟩, c5_fatal_empty 22 none (some []) (some "previous") rfl rfl⟩

/-- Claim C6: if the external ruleset-load command exits non-zero, the
apply phase aborts with an error having invoked only the load command; the
enable-and-start-service command is never invoked in that run, also across
the whole `startSetupNftables` run. -/
theorem c6_load_failure_blocks_enable (exitOK : Cmd → Bool)
    (hload : exitOK Cmd.loadRuleset = false) :
    applyNftables exitOK
        = ([Cmd.loadRuleset], Except.error "failed to apply nftables configuration") ∧
    Cmd.enableService ∉ (applyNftables exitOK).1 ∧
    ∀ sshdConfig v4File v6File nftablesConf,
      Cmd.enableService ∉
        (startSetupNftables sshdConfig v4File v6File nftablesConf exitOK).2.1 := by
  have happ : applyNftables exitOK
      = ([Cmd.loadRuleset], Except.error "failed to apply nftables configuration") := by
    unfold applyNftables
    rw [hload]
    rfl
  refine ⟨happ, by rw [happ]; decide, ?_⟩
  intro sshdConfig v4File v6File nftablesConf
  unfold startSetupNftables
  rcases hinit : initializeNftablesConf (discoverSSHPort sshdConfig) v4File v6File nftablesConf
    with ⟨conf, res⟩
  cases res with
  | error e => simp
  | ok u =>
    rw [happ]
    simp

/-- Witness for claim C6 with an oracle that fails every command. -/
theorem c6_witness :
    ((fun _ : Cmd => false) Cmd.loadRuleset = false) ∧
    (applyNftables (fun _ => false)
        = ([Cmd.loadRuleset], Except.error "failed to apply nftables configuration") ∧
      Cmd.enableService ∉ (applyNftables (fun _ => false)).1 ∧
      ∀ sshdConfig v4File v6File nftablesConf,
        Cmd.enableService ∉
          (startSetupNftables sshdConfig v4File v6File nftablesConf (fun _ => false)).2.1) :=
  ⟨rfl, c6_load_failure_blocks_enable (fun _ => false) rfl⟩

/-- Claim C7: the renderer is a pure function of `(v4-set, v6-set, port)`:
rendering equal triples yields byte-identical documents. -/
theorem c7_render_deterministic (port1 port2 : Nat) (v41 v42 v61 v62 : List NetPrefix)
    (hp : port1 = port2) (h4 : v41 = v42) (h6 : v61 = v62) :
    renderNftablesTemplate port1 v41 v61 = renderNftablesTemplate port2 v42 v62 := by
  rw [hp, h4, h6]

/-- Witness for claim C7 at a concrete triple. -/
theorem c7_witness :
    ((22 : Nat) = 22 ∧ ([blockA] : List NetPrefix) = [blockA] ∧
      ([blockV6] : List NetPrefix) = [blockV6]) ∧
    renderNftablesTemplate 22 [blockA] [blockV6] = renderNftablesTemplate 22 [blockA] [blockV6] :=
  ⟨⟨rfl, rfl, rfl⟩, c7_render_deterministic 22 22 [blockA] [blockA] [blockV6] [blockV6] rfl rfl rfl⟩

/-- Claim C8: v4 normalization is idempotent. A set that is already in
normalized shape (all `/24`, duplicate-free, canonically sorted) is
returned unchanged, and in particular re-normalizing any normalization
output returns that output. -/
theorem c8_normalize_idempotent :
    (∀ l : List NetPrefix, (∀ p ∈ l, p.bits = 24) → l.Sorted prefLt →
      normalizeV4 l = some l) ∧
    (∀ l out : List NetPrefix, normalizeV4 l = some out → normalizeV4 out = some out) := by
  refine ⟨fun l h24 hs => normalizeV4_of_normalized h24 hs, fun l out hout => ?_⟩
  exact normalizeV4_of_normalized (normalizeV4_bits hout) (normalizeV4_sorted hout)

/-- Witness for claim C8: re-normalizing the normalization of
`198.51.100.0/23` changes nothing. -/
theorem c8_witness :
    normalizeV4 [scenarioBlock] = some [blockA, blockB] ∧
    normalizeV4 [blockA, blockB] = some [blockA, blockB] :=
  ⟨by decide, c8_normalize_idempotent.2 [scenarioBlock] [blockA, blockB] (by decide)⟩

/-- Claim C9: administrative-port discovery scans the configuration lines
for a `Port <number>` directive and the first parseable match wins; when
the source is absent or has no directive, the pipeline continues with the
default port 22; and the discovered-or-defaulted port is the one placed in
the rendered document's SSH-accept rule. -/
theorem c9_ssh_port_discovery :
    (∀ (pre : List String) (line : String) (post : List String) (n : Nat),
      (∀ l ∈ pre, portDirective l = none) → portDirective line = some n →
      findSSHPort (some (pre ++ line :: post)) = some n) ∧
    (∀ sshdConfig, findSSHPort sshdConfig = none → discoverSSHPort sshdConfig = 22) ∧
    (∀ sshdPort v4Prefixes v6Prefixes, ∃ s t,
      renderNftablesTemplate sshdPort v4Prefixes v6Prefixes
        = s ++ ("tcp dport " ++ toString sshdPort ++ " accept") ++ t) ∧
    (∀ sshdConfig v4File v6File nftablesConf,
      ¬(v4File.getD [] = [] ∧ v6File.getD ([] : List NetPrefix) = []) →
      (initializeNftablesConf (discoverSSHPort sshdConfig) v4File v6File nftablesConf).1
        = some (renderNftablesTemplate (discoverSSHPort sshdConfig)
            (v4File.getD []) (v6File.getD []))) := by
  refine ⟨?_, ?_, ?_, ?_⟩
  · intro pre line post n
    induction pre with
    | nil =>
      intro _ hline
      show List.findSome? portDirective ([] ++ line :: post) = some n
      rw [List.nil_append, List.findSome?_cons_of_isSome _ (by simp [hline])]
      exact hline
    | cons a t ih =>
      intro hpre hline
      show List.findSome? portDirective ((a :: t) ++ line :: post) = some n
      rw [List.cons_append,
        List.findSome?_cons_of_isNone _ (by simp [hpre a (List.mem_cons_self a t)])]
      exact ih (fun l hl => hpre l (List.mem_cons_of_mem a hl)) hline
  · intro sshdConfig h
    unfold discoverSSHPort
    rw [h]
    rfl
  · intro sshdPort v4Prefixes v6Prefixes
    exact ⟨renderHeader v4Prefixes v6Prefixes, renderFooter v4Prefixes v6Prefixes, rfl⟩
  · intro sshdConfig v4File v6File nftablesConf hne
    unfold initializeNftablesConf
    rw [if_neg (by simpa [List.isEmpty_eq_true] using hne)]

/-- Witness for claim C9 at the spec's Scenario D (`Port 2222`), the
absent-source fallback, and a concrete render. -/
theorem c9_witness :
    (portDirective "Port 2222" = some 2222 ∧
      findSSHPort (none : Option (List String)) = none ∧
      ¬((some [blockA] : Option (List NetPrefix)).getD [] = [] ∧
        (none : Option (List NetPrefix)).getD ([] : List NetPrefix) = [])) ∧
    (findSSHPort (some (([] : List String) ++ "Port 2222" :: [])) = some 2222 ∧
      discoverSSHPort (none : Option (List String)) = 22 ∧
      (∃ s t, renderNftablesTemplate 2222 [blockA] []
        = s ++ ("tcp dport " ++ toString (2222 : Nat) ++ " accept") ++ t) ∧
      (initializeNftablesConf (discoverSSHPort (some ["Port 2222"])) (some [blockA]) none
          (some "previous")).1
        = some (renderNftablesTemplate (discoverSSHPort (some ["Port 2222"]))
            ((some [blockA] : Option (List NetPrefix)).getD [])
            ((none : Option (List NetPrefix)).getD []))) :=
  ⟨⟨by decide, rfl, by decide⟩,
    c9_ssh_port_discovery.1 [] "Port 2222" [] 2222 (by simp) (by decide),
    c9_ssh_port_discovery.2.1 none rfl,
    c9_ssh_port_discovery.2.2.1 2222 [blockA] [],
    c9_ssh_port_discovery.2.2.2 (some ["Port 2222"]) (some [blockA]) none (some "previous")
      (by decide)⟩

/-- Claim C10: an empty filtered family leaves that family's persisted
file byte-for-byte unchanged while the write phase still succeeds, and a
terminal fetch failure leaves both files untouched. -/
theorem c10_empty_writes_preserve_files :
    (∀ outputFile, writePrefixesToFileV4 [] outputFile = (outputFile, Except.ok ())) ∧
    (∀ outputFile, writePrefixesToFileV6 [] outputFile = (outputFile, Except.ok ())) ∧
    (∀ asns v4File v6File, startFetchPrefixes none asns v4File v6File = (v4File, v6File)) :=
  ⟨fun _ => rfl, fun _ => rfl, fun _ _ _ => rfl⟩

end IrAccess
